import Mathlib

/-!
Shallow embedding of the Visa Tracker server (src/server.js and the
export/import variant src/unnamed/part_000).

JSON values are modelled by `JValue`; a JavaScript object is an ordered
association list of string keys and values (`JObj`).  JavaScript numbers are
modelled as integers: no claim depends on non-integral numeric semantics.
Each HTTP handler body is embedded as a pure function from the values it
reads (request body, stored collections) to the values it writes and
returns; a `none` / error result means the handler responds with an error
status and performs no write, exactly as in the source, where the early
`return res.status(404/400)` precedes any `writeDB` call.
-/

namespace VisaTracker

/-- A JSON value as stored in the flat-file database and sent in request
bodies.  Numbers are modelled as integers (see module comment). -/
inductive JValue : Type where
  | null
  | bool (b : Bool)
  | num (n : Int)
  | str (s : String)
  | arr (elems : List JValue)
  | obj (fields : List (String × JValue))

/-- A JavaScript object: ordered key/value pairs. -/
abbrev JObj := List (String × JValue)

/-- Property access `o[k]` on an object: first binding of the key wins,
`none` models JavaScript `undefined`. -/
def objGet : JObj → String → Option JValue
  | [], _ => none
  | kv :: rest, k => if kv.1 = k then some kv.2 else objGet rest k

/-- Property access `v.k` on an arbitrary value: `undefined` (`none`) unless
`v` is an object with the key. -/
def jget : JValue → String → Option JValue
  | .obj kvs, k => objGet kvs k
  | _, _ => none

/-- JavaScript truthiness of a JSON value (`if (v)`): `null`, `false`, `0`
and the empty string are falsy, arrays and objects are always truthy. -/
def truthy : JValue → Bool
  | .null => false
  | .bool b => b
  | .num n => n != 0
  | .str s => s != ""
  | .arr _ => true
  | .obj _ => true

/-- Object spread `{ ...a, ...b }`: keys of `a` in order, with the value
from `b` when `b` also has the key, followed by the keys only `b` has. -/
def spread (a b : JObj) : JObj :=
  a.map (fun kv =>
      match objGet b kv.1 with
      | some v => (kv.1, v)
      | none => kv)
    ++ b.filter (fun kv => (objGet a kv.1).isNone)

/-- The fields of a value that is known to be an object (`[]` otherwise;
every use site guards on the value being an object). -/
def asObj : JValue → JObj
  | .obj kvs => kvs
  | _ => []

/-- The value of `a.id` when it is a string, `none` otherwise; the route parameter
`req.params.id` is always a string, so `a.id === req.params.id` can only
hold for a string-valued `id` field. -/
def idOf (a : JValue) : Option String :=
  match jget a "id" with
  | some (.str s) => some s
  | _ => none

/-- The predicate `a.id === req.params.id` used by findIndex / filter. -/
def hasId (a : JValue) (id : String) : Bool := idOf a == some id

/-! ### Applicant Registry (src/server.js lines 78-122; identical in
src/unnamed/part_000 lines 77-123) -/

/-- POST /api/applicants: `const newApplicant = { id: crypto.randomUUID(), ...req.body }`
then `applicants.unshift(newApplicant)`; responds 201 with `newApplicant`.
The UUID produced by `crypto.randomUUID()` is passed in as `freshId`.
Returns (response record, new stored collection). -/
def postApplicants (freshId : String) (body : JObj) (applicants : List JValue) :
    JValue × List JValue :=
  let newApplicant := JValue.obj (spread [("id", JValue.str freshId)] body)
  (newApplicant, newApplicant :: applicants)

/-- PUT /api/applicants/:id: `findIndex(a => a.id === req.params.id)`, 404
when absent, else `applicants[index] = { ...applicants[index], ...req.body }`.
`none` models the 404 response, which precedes any write.  The recursion
walks the collection exactly as `findIndex` does: the first record whose
`id` equals the route parameter is replaced in place. -/
def putApplicant (id : String) (body : JObj) : List JValue → Option (JValue × List JValue)
  | [] => none
  | a :: rest =>
    if hasId a id then
      let updatedApplicant := JValue.obj (spread (asObj a) body)
      some (updatedApplicant, updatedApplicant :: rest)
    else
      match putApplicant id body rest with
      | none => none
      | some (u, rest') => some (u, a :: rest')

/-- DELETE /api/applicants/:id: `applicants.filter(a => a.id !== req.params.id)`,
404 (`none`, no write) when the length is unchanged. -/
def deleteApplicant (id : String) (applicants : List JValue) : Option (List JValue) :=
  let filtered := applicants.filter (fun a => !(hasId a id))
  if filtered.length = applicants.length then none else some filtered

/-! ### Settings Registry (src/server.js lines 48-66) -/

/-- GET /api/settings: returns the stored document verbatim. -/
def getSettings (stored : JValue) : JValue := stored

/-- POST /api/settings: `writeDB(SETTINGS_FILE, req.body); res.json(req.body)`.
Returns (response, new stored document). -/
def postSettings (body : JValue) : JValue × JValue := (body, body)

/-! ### Export (src/unnamed/part_000 lines 135-218) -/

/-- The selection `ids && ids.length > 0 ? allApplicants.filter(a => ids.includes(a.id)) : allApplicants`
(lines 142-144).  `ids` is the optional array from the request body
(`none` = absent, hence falsy); `includes` on a string array can only
match a string-valued `id` field. -/
def applicantsToExport (ids : Option (List String)) (allApplicants : List JValue) :
    List JValue :=
  match ids with
  | some l =>
      if 0 < l.length then
        allApplicants.filter (fun a =>
          match idOf a with
          | some s => l.contains s
          | none => false)
      else allApplicants
  | none => allApplicants

/-- POST /api/export with `type: "backup"` (lines 146-153): the JSON
document `{ settings, applicants: applicantsToExport }` sent as attachment. -/
def exportBackup (settings : JValue) (allApplicants : List JValue)
    (ids : Option (List String)) : JValue :=
  JValue.obj [("settings", settings),
              ("applicants", JValue.arr (applicantsToExport ids allApplicants))]

/-! ### Export, zip branch (src/unnamed/part_000 lines 154-209) -/

mutual
/-- JavaScript string coercion `String(v)` as used by template
interpolation and by `JSON.parse`'s implicit argument coercion, for the
JSON values that can appear in the store. -/
def jsToString : JValue → String
  | .null => "null"
  | .bool b => if b then "true" else "false"
  | .num n => toString n
  | .str s => s
  | .arr xs => String.intercalate "," (jsArrParts xs)
  | .obj _ => "[object Object]"
/-- JavaScript `Array.prototype.toString` joins with "," and renders `null` elements
as the empty string. -/
def jsArrParts : List JValue → List String
  | [] => []
  | JValue.null :: rest => "" :: jsArrParts rest
  | v :: rest => jsToString v :: jsArrParts rest
end

/-- One field line value of the text summary: `${app.F || 'N/A'}`. -/
def fieldOr (a : JValue) (k : String) : String :=
  match jget a k with
  | some v => if truthy v then jsToString v else "N/A"
  | none => "N/A"

/-- The per-applicant block appended to `txtContent` (lines 172-181). -/
def summaryBlock (a : JValue) : String :=
  "Name: " ++ fieldOr a "FullName" ++ "\r\n" ++
  "Passport: " ++ fieldOr a "PassportNumber" ++ "\r\n" ++
  "File Number: " ++ fieldOr a "FileNumber" ++ "\r\n" ++
  "UID: " ++ fieldOr a "UIDNumber" ++ "\r\n" ++
  "Email: " ++ fieldOr a "Email" ++ "\r\n" ++
  "Phone: " ++ fieldOr a "Phone" ++ "\r\n" ++
  "Nationality: " ++ fieldOr a "Nationality" ++ "\r\n" ++
  "-----------------------\r\n"

/-- The fixed header `txtContent` starts with (line 171). -/
def summaryHeader : String :=
  "Applicant Data Export\r\n=======================\r\n\r\n"

/-- The `forEach` loop appending one block per exported applicant. -/
def summaryBlocks : List JValue → String
  | [] => ""
  | a :: rest => summaryBlock a ++ summaryBlocks rest

/-- The value of `txtContent` after the `forEach` over the exported applicants. -/
def summaryText (apps : List JValue) : String :=
  summaryHeader ++ summaryBlocks apps

/-- One character of `.replace(/[^a-z0-9]/gi, '_')` followed by `.toLowerCase()`. -/
def sanitizeFolderChar (c : Char) : Char :=
  if c.isAlphanum then c.toLower else '_'

/-- Folder-name sanitization of the applicant's full name (line 196). -/
def sanitizeFolder (s : String) : String :=
  String.mk (s.toList.map sanitizeFolderChar)

/-- One character of `.replace(/[^a-z0-9.]/gi, '_')` followed by `.toLowerCase()`. -/
def sanitizeDocChar (c : Char) : Char :=
  if c.isAlphanum || c = '.' then c.toLower else '_'

/-- Document-name sanitization (line 197). -/
def sanitizeDoc (s : String) : String :=
  String.mk (s.toList.map sanitizeDocChar)

/-- Node `path.extname`: the suffix of the basename starting at its last
dot; empty when the basename has no dot or its only dot is its first
character. -/
def extname (s : String) : String :=
  let b := s.toList.foldl (fun acc c => if c = '/' then [] else acc ++ [c]) []
  match (b.enum.filter (fun p => p.2 == '.')).getLast? with
  | none => ""
  | some (0, _) => ""
  | some (i, _) => String.mk (b.drop i)

/-- The path `path.join(__dirname, doc.url)` for the URL shape the server stores
(`/uploads/<file>`): with an absolute-style second segment and no trailing
separator on `dirname`, Node's join is the concatenation. -/
def joinPath (dirname url : String) : String := dirname ++ url

/-- The expression `v || dflt` followed by the string methods `.replace(...).toLowerCase()`:
a present string falls back only when empty; a falsy non-string value falls
back; a truthy non-string value reaches `.replace`, which is not a function
on it, so the expression throws (`none`). -/
def strOrElse (v : Option JValue) (dflt : String) : Option String :=
  match v with
  | some (.str s) => some (if s = "" then dflt else s)
  | some v => if truthy v then none else some dflt
  | none => some dflt

/-- One entry appended to the zip archive: the generated text file
(`archive.append`) or a file from the uploads directory (`archive.file`,
recorded with its source path and its name inside the archive). -/
inductive AEntry : Type where
  | text (name content : String)
  | file (srcPath entryName : String)
  deriving DecidableEq

/-- Processing of one `doc` inside the document loop (lines 189-202).
`none`: `path.join` threw on a non-string `doc.url`, control reaches the
per-applicant catch and the remaining docs of this applicant are aborted.
`some none`: the inner catch fired — `fs.access` failed on a missing file,
or building the folder/doc name threw — and this doc is skipped with a
warning.  `some (some e)`: the file exists and entry `e` is added. -/
def docEntry (dirname : String) (fileExists : String → Bool)
    (fullName : Option JValue) (doc : JValue) : Option (Option AEntry) :=
  match jget doc "url" with
  | some (.str url) =>
      if fileExists (joinPath dirname url) then
        match strOrElse fullName "unknown_applicant",
              strOrElse (jget doc "name") "unknown_doc" with
        | some fn, some dn =>
            some (some (AEntry.file (joinPath dirname url)
              (sanitizeFolder fn ++ "/" ++ sanitizeDoc dn ++ extname url)))
        | _, _ => some none
      else some none
  | _ => none

/-- The `for (const doc of docs)` loop; a throw while materialising one
doc's path aborts the rest of this applicant's docs (outer catch). -/
def docLoop (dirname : String) (fileExists : String → Bool)
    (fullName : Option JValue) : List JValue → List AEntry
  | [] => []
  | doc :: rest =>
      match docEntry dirname fileExists fullName doc with
      | none => []
      | some none => docLoop dirname fileExists fullName rest
      | some (some e) => e :: docLoop dirname fileExists fullName rest

/-- Documents bundled for one applicant (lines 185-207): guarded by
`if (applicant.Documents)` (truthiness), then `JSON.parse(applicant.Documents)`.
`jsonParse` abstracts JavaScript `JSON.parse` on strings; a non-string
field is first coerced with `String`.  A parse failure, or a parse result
that is not an array (so the `for…of` head throws), lands in the
per-applicant catch: nothing is bundled for this applicant and the export
continues. -/
def applicantDocEntries (dirname : String) (jsonParse : String → Option JValue)
    (fileExists : String → Bool) (applicant : JValue) : List AEntry :=
  match jget applicant "Documents" with
  | some d =>
      if truthy d then
        match jsonParse (jsToString d) with
        | some (.arr docs) =>
            docLoop dirname fileExists (jget applicant "FullName") docs
        | _ => []
      else []
  | none => []

/-- POST /api/export with `type: "zip"`: the entries appended to the
archive, in order — the generated text summary first (line 182), then each
exported applicant's surviving documents (lines 185-207).  The function is
total: no store contents make the handler abort. -/
def exportZip (dirname : String) (jsonParse : String → Option JValue)
    (fileExists : String → Bool) (apps : List JValue) : List AEntry :=
  AEntry.text "applicant-data.txt" (summaryText apps)
    :: apps.flatMap (applicantDocEntries dirname jsonParse fileExists)

/-! ### Import handlers -/

/-- POST /api/import in src/server.js (lines 134-151): destructures
`{ settings, applicants }` from the JSON body and rejects with 400 — before
any write — only when either value is missing or falsy
(`if (!settings || !applicants)`); otherwise both stored files are
overwritten with the payload values exactly as they are.  `none` models
the 400 response; `some (s, a)` the two writes. -/
def importServerJs (body : JObj) : Option (JValue × JValue) :=
  match objGet body "settings", objGet body "applicants" with
  | some settings, some applicants =>
      if truthy settings && truthy applicants then some (settings, applicants)
      else none
  | _, _ => none

/-- POST /api/import in src/unnamed/part_000 (lines 223-245): parses the
uploaded backup file and rejects with 400 — before any write — unless
`backupData.settings` is truthy and `Array.isArray(backupData.applicants)`;
otherwise both stored files are overwritten.  `none` models the 400
response; `some (s, l)` the two writes. -/
def importBackupFile (backupData : JValue) : Option (JValue × List JValue) :=
  match jget backupData "applicants" with
  | some (JValue.arr l) =>
      match jget backupData "settings" with
      | some s => if truthy s then some (s, l) else none
      | none => none
  | _ => none

/-- The src/server.js import handler as a transformer of the two stored
files, with its HTTP status: the 400 `return` precedes both `writeDB`
calls, so a rejected payload leaves the stored values exactly as they
were; an accepted payload overwrites both with the payload's values. -/
def importServerJsStore (body : JObj)
    (storedSettings storedApplicants : JValue) : Nat × JValue × JValue :=
  match importServerJs body with
  | some (s, a) => (200, s, a)
  | none => (400, storedSettings, storedApplicants)

/-- The part_000 import handler as a transformer of the two stored files,
with its HTTP status: the 400 `return` precedes both `writeDB` calls, so
a rejected payload leaves the stored values exactly as they were; an
accepted payload overwrites both with the payload's components. -/
def importBackupFileStore (backupData : JValue)
    (storedSettings storedApplicants : JValue) : Nat × JValue × JValue :=
  match importBackupFile backupData with
  | some (s, l) => (200, s, JValue.arr l)
  | none => (400, storedSettings, storedApplicants)

/-! ### Auxiliary lemmas -/

theorem objGet_append (x y : JObj) (k : String) :
    objGet (x ++ y) k = (objGet x k).or (objGet y k) := by
  induction x with
  | nil => simp [objGet, Option.or]
  | cons kv rest ih =>
      by_cases hk : kv.1 = k
      · simp [objGet, hk, Option.or]
      · simp [objGet, hk, ih]

theorem objGet_map_override (a b : JObj) (k : String) :
    objGet (a.map (fun kv =>
        match objGet b kv.1 with
        | some v => (kv.1, v)
        | none => kv)) k =
      match objGet a k, objGet b k with
      | some _, some w => some w
      | some v, none => some v
      | none, _ => none := by
  induction a with
  | nil => cases objGet b k <;> simp [objGet]
  | cons kv rest ih =>
      by_cases hk : kv.1 = k
      · subst hk
        cases hb : objGet b kv.1 with
        | none => simp [objGet, hb]
        | some w => simp [objGet, hb]
      · cases hb : objGet b kv.1 with
        | none => simpa [objGet, hb, hk] using ih
        | some v => simpa [objGet, hb, hk] using ih

theorem objGet_filter_newKeys (a b : JObj) (k : String) :
    objGet (b.filter (fun kv => (objGet a kv.1).isNone)) k =
      match objGet a k with
      | some _ => none
      | none => objGet b k := by
  induction b with
  | nil => cases objGet a k <;> simp [objGet]
  | cons kv rest ih =>
      by_cases hk : kv.1 = k
      · subst hk
        cases ha : objGet a kv.1 with
        | none => simp [objGet, List.filter_cons, ha]
        | some v => simp [objGet, List.filter_cons, ha, ih]
      · cases ha : objGet a kv.1 with
        | none => simpa [objGet, List.filter_cons, ha, hk] using ih
        | some v => simpa [objGet, List.filter_cons, ha, hk] using ih

/-- Key lemma for the shallow merges: lookup in `{ ...a, ...b }` is lookup
in `b`, falling back to `a`. -/
theorem objGet_spread (a b : JObj) (k : String) :
    objGet (spread a b) k =
      match objGet b k with
      | some v => some v
      | none => objGet a k := by
  rw [spread, objGet_append, objGet_map_override, objGet_filter_newKeys]
  cases objGet a k <;> cases objGet b k <;> simp [Option.or]


theorem jget_obj (kvs : JObj) (k : String) :
    jget (JValue.obj kvs) k = objGet kvs k := rfl

theorem hasId_iff_idOf (a : JValue) (id : String) :
    hasId a id = true ↔ idOf a = some id := by
  unfold hasId
  exact beq_iff_eq

theorem hasId_iff_jget (a : JValue) (id : String) :
    hasId a id = true ↔ jget a "id" = some (JValue.str id) := by
  rw [hasId_iff_idOf]
  unfold idOf
  cases hj : jget a "id" with
  | none => simp
  | some v => cases v <;> simp

theorem obj_of_jget_some {a : JValue} {k : String} {v : JValue}
    (h : jget a k = some v) : a = JValue.obj (asObj a) := by
  cases a
  case obj kvs => rfl
  all_goals simp [jget] at h

/-! ### C9: settings set/get round-trip -/

/-- C9: `POST /api/settings` writes the request body verbatim over the
stored document (full replace, no merge) and echoes it; `GET /api/settings`
then returns a document equal to the submitted one — in particular a
submitted `VISA_STEPS` sequence comes back in the exact submitted order. -/
theorem settings_set_then_get (v : JValue) :
    (postSettings v).1 = v ∧ getSettings (postSettings v).2 = v ∧
    (∀ (kvs : JObj) (steps : List JValue),
      objGet kvs "VISA_STEPS" = some (JValue.arr steps) →
      jget (getSettings (postSettings (JValue.obj kvs)).2) "VISA_STEPS"
        = some (JValue.arr steps)) :=
  ⟨rfl, rfl, fun _ _ h => h⟩

/-- Witness for C9 at a permuted two-step sequence. -/
theorem settings_set_then_get_witness :
    jget (getSettings (postSettings (JValue.obj
        [("id", JValue.str "settings_1"),
         ("VISA_STEPS", JValue.arr [JValue.str "Medical Test",
                                    JValue.str "Offer Letter"])])).2)
      "VISA_STEPS"
      = some (JValue.arr [JValue.str "Medical Test", JValue.str "Offer Letter"]) :=
  (settings_set_then_get JValue.null).2.2 _ _ rfl

/-! ### C7: snapshot (backup) export -/

/-- C7: the backup export document is `{settings, applicants}` where the
applicants component is the entire stored collection when `ids` is absent
or empty, and otherwise exactly the stored applicants whose id is a member
of `ids`, as a filter of the stored sequence (hence in stored order). -/
theorem export_backup_filter (settings : JValue) (allApplicants : List JValue) :
    exportBackup settings allApplicants none
      = JValue.obj [("settings", settings),
                    ("applicants", JValue.arr allApplicants)]
  ∧ exportBackup settings allApplicants (some [])
      = JValue.obj [("settings", settings),
                    ("applicants", JValue.arr allApplicants)]
  ∧ ∀ (ids : List String), ids ≠ [] →
      exportBackup settings allApplicants (some ids)
        = JValue.obj [("settings", settings),
            ("applicants", JValue.arr (allApplicants.filter (fun a =>
              match idOf a with
              | some s => ids.contains s
              | none => false)))] := by
  refine ⟨rfl, rfl, fun ids h => ?_⟩
  have hl : 0 < ids.length := List.length_pos.mpr h
  simp [exportBackup, applicantsToExport, hl]

/-- Witness for C7 with a nonempty id selection. -/
theorem export_backup_filter_witness :
    exportBackup (JValue.obj [("id", JValue.str "settings_1")])
        [JValue.obj [("id", JValue.str "a1")], JValue.obj [("id", JValue.str "a2")]]
        (some ["a2"])
      = JValue.obj [("settings", JValue.obj [("id", JValue.str "settings_1")]),
          ("applicants", JValue.arr [JValue.obj [("id", JValue.str "a2")]])] :=
  ((export_backup_filter _ _).2.2 ["a2"] (by simp)).trans (by rfl)

/-! ### C6: export-then-import round-trip -/

/-- C6: exporting with type backup (no id selection) and feeding the
resulting `{settings, applicants}` document to the part_000 import handler
on a fresh store is accepted, and stores settings and applicants
deep-equal to the originals.  A settings document is a JSON object, which
is always truthy, so validation passes. -/
theorem backup_import_roundtrip (settingsFields : JObj) (applicants : List JValue) :
    importBackupFile (exportBackup (JValue.obj settingsFields) applicants none)
      = some (JValue.obj settingsFields, applicants) := rfl

/-! ### C1: create generates the id (corrected) -/

/-- C1 counterexample: the claim quantifies over every request field set,
but `{ id: crypto.randomUUID(), ...req.body }` lets a body that itself
carries an `id` key override the generated id — here the generated UUID is
"u-1" and the stored and returned record carries id "evil" instead. -/
theorem create_overridden_id :
    (postApplicants "u-1" [("id", JValue.str "evil")] []).1
      = JValue.obj [("id", JValue.str "evil")]
    ∧ idOf (postApplicants "u-1" [("id", JValue.str "evil")] []).1 ≠ some "u-1" :=
  ⟨rfl, by decide⟩

/-- C1 amended: for request field sets without an `id` key, create
generates the id server-side (`crypto.randomUUID()` always yields a
non-empty 36-character string, embedded as the `freshId` argument): the
new record is prepended, is returned as stored, carries the generated
non-empty id, carries every submitted field unchanged, and — the UUID
being fresh for the collection — the new collection contains exactly one
record with that id. -/
theorem create_then_list (freshId : String) (body : JObj)
    (applicants : List JValue)
    (hid : objGet body "id" = none) (hne : freshId ≠ "")
    (hfresh : ∀ a ∈ applicants, hasId a freshId = false) :
    postApplicants freshId body applicants
      = (JValue.obj (spread [("id", JValue.str freshId)] body),
         JValue.obj (spread [("id", JValue.str freshId)] body) :: applicants)
    ∧ idOf (JValue.obj (spread [("id", JValue.str freshId)] body)) = some freshId
    ∧ freshId ≠ ""
    ∧ (∀ k, k ≠ "id" →
        jget (JValue.obj (spread [("id", JValue.str freshId)] body)) k
          = objGet body k)
    ∧ (JValue.obj (spread [("id", JValue.str freshId)] body) :: applicants).filter
        (fun a => hasId a freshId)
      = [JValue.obj (spread [("id", JValue.str freshId)] body)] := by
  have hrid : jget (JValue.obj (spread [("id", JValue.str freshId)] body)) "id"
      = some (JValue.str freshId) := by
    rw [jget_obj, objGet_spread, hid]
    simp [objGet]
  refine ⟨rfl, ?_, hne, ?_, ?_⟩
  · unfold idOf
    rw [hrid]
  · intro k hk
    rw [jget_obj, objGet_spread]
    cases hb : objGet body k with
    | some v => rfl
    | none =>
        have : ¬ ("id" = k) := fun h => hk h.symm
        simp [objGet, this]
  · have hone : hasId (JValue.obj (spread [("id", JValue.str freshId)] body))
        freshId = true := (hasId_iff_jget _ _).mpr hrid
    rw [List.filter_cons, if_pos hone,
        List.filter_eq_nil_iff.mpr (fun a ha => by simp [hfresh a ha])]

/-- Witness for C1 (amended) at a concrete creation on the empty store. -/
theorem create_then_list_witness :
    idOf (JValue.obj (spread [("id", JValue.str "uuid-1")]
        [("FullName", JValue.str "Jane Doe")])) = some "uuid-1" :=
  (create_then_list "uuid-1" [("FullName", JValue.str "Jane Doe")] []
    rfl (by decide) (by simp)).2.1

/-! ### C2: id immutability under update (corrected) -/

/-- C2 counterexample: the claim covers update field sets that contain an
`id` key, but `{ ...applicants[index], ...req.body }` lets the body's `id`
replace the stored one — here the record created with id "a" ends up
returned and stored with id "b" after `update("a", {id: "b"})`. -/
theorem update_overridden_id :
    putApplicant "a" [("id", JValue.str "b")] [JValue.obj [("id", JValue.str "a")]]
      = some (JValue.obj [("id", JValue.str "b")],
              [JValue.obj [("id", JValue.str "b")]])
    ∧ idOf (JValue.obj [("id", JValue.str "b")]) ≠ some "a" :=
  ⟨rfl, by decide⟩

/-- C2 amended: for update field sets without an `id` key, the id is
immutable — the record returned by a successful update still carries the
id it was addressed (and created) with, and the sequence of ids stored in
the collection is unchanged. -/
theorem update_preserves_id (id : String) (body : JObj)
    (hid : objGet body "id" = none) :
    ∀ (applicants : List JValue) (u : JValue) (applicants' : List JValue),
      putApplicant id body applicants = some (u, applicants') →
      idOf u = some id ∧ applicants'.map idOf = applicants.map idOf := by
  intro applicants
  induction applicants with
  | nil => intro u l h; simp [putApplicant] at h
  | cons a rest ih =>
      intro u l h
      by_cases ha : hasId a id = true
      · simp only [putApplicant, ha, if_true] at h
        have h' := Option.some.inj h
        have hu : JValue.obj (spread (asObj a) body) = u := congrArg Prod.fst h'
        have hl : JValue.obj (spread (asObj a) body) :: rest = l :=
          congrArg Prod.snd h'
        have hja : jget a "id" = some (JValue.str id) := (hasId_iff_jget a id).mp ha
        have haobj : a = JValue.obj (asObj a) := obj_of_jget_some hja
        have hju : jget (JValue.obj (spread (asObj a) body)) "id"
            = some (JValue.str id) := by
          rw [jget_obj, objGet_spread, hid]
          show objGet (asObj a) "id" = some (JValue.str id)
          rw [← jget_obj, ← haobj]
          exact hja
        have hupd : idOf (JValue.obj (spread (asObj a) body)) = some id := by
          unfold idOf
          rw [hju]
        refine ⟨hu ▸ hupd, ?_⟩
        rw [← hl, List.map_cons, List.map_cons, hupd,
            (hasId_iff_idOf a id).mp ha]
      · simp only [putApplicant, ha, if_false] at h
        cases hrec : putApplicant id body rest with
        | none => rw [hrec] at h; exact absurd h (by simp)
        | some p =>
            obtain ⟨u', r'⟩ := p
            rw [hrec] at h
            have h' := Option.some.inj h
            have hu : u' = u := congrArg Prod.fst h'
            have hl : a :: r' = l := congrArg Prod.snd h'
            obtain ⟨h1, h2⟩ := ih u' r' hrec
            refine ⟨hu ▸ h1, ?_⟩
            rw [← hl, List.map_cons, List.map_cons, h2]

/-- Witness for C2 (amended) at a concrete update without an `id` key. -/
theorem update_preserves_id_witness :
    idOf (JValue.obj [("id", JValue.str "a"), ("X", JValue.str "2")]) = some "a"
    ∧ [JValue.obj [("id", JValue.str "a"), ("X", JValue.str "2")]].map idOf
      = [JValue.obj [("id", JValue.str "a"), ("X", JValue.str "1")]].map idOf :=
  update_preserves_id "a" [("X", JValue.str "2")] rfl
    [JValue.obj [("id", JValue.str "a"), ("X", JValue.str "1")]]
    (JValue.obj [("id", JValue.str "a"), ("X", JValue.str "2")])
    [JValue.obj [("id", JValue.str "a"), ("X", JValue.str "2")]] rfl

/-! ### C3: shallow-overlay update with frame condition -/

theorem putApplicant_eq_none_iff (id : String) (body : JObj) :
    ∀ (apps : List JValue),
      putApplicant id body apps = none ↔ ∀ a ∈ apps, hasId a id = false
  | [] => by simp [putApplicant]
  | a :: rest => by
      have hrec := putApplicant_eq_none_iff id body rest
      cases ha : hasId a id with
      | true =>
          simp only [putApplicant, ha, if_true]
          constructor
          · intro h; exact Option.noConfusion h
          · intro h
            exact absurd ha (by simp [h a (List.mem_cons_self a rest)])
      | false =>
          simp only [putApplicant, ha, Bool.false_eq_true, if_false]
          cases hr : putApplicant id body rest with
          | none =>
              rw [hr] at hrec
              simp only [true_iff] at hrec
              constructor
              · intro _ b hb
                rcases List.mem_cons.mp hb with h | h
                · rw [h]; exact ha
                · exact hrec b h
              · intro _; rfl
          | some p =>
              obtain ⟨u, rest'⟩ := p
              rw [hr] at hrec
              constructor
              · intro h; exact Option.noConfusion h
              · intro h
                have : (none : Option (JValue × List JValue)) = some (u, rest') := by
                  rw [← hrec.mpr (fun b hb => h b (List.mem_cons_of_mem a hb))]
                exact Option.noConfusion this

theorem putApplicant_found (id : String) (body : JObj) :
    ∀ (pre : List JValue) (a : JValue) (post : List JValue),
      (∀ p ∈ pre, hasId p id = false) → hasId a id = true →
      putApplicant id body (pre ++ a :: post)
        = some (JValue.obj (spread (asObj a) body),
                pre ++ JValue.obj (spread (asObj a) body) :: post)
  | [], a, post, _, ha => by simp [putApplicant, ha]
  | p :: pre', a, post, hpre, ha => by
      have hp : hasId p id = false := hpre p (List.mem_cons_self p pre')
      have hrec := putApplicant_found id body pre' a post
        (fun q hq => hpre q (List.mem_cons_of_mem p hq)) ha
      simp [putApplicant, hp, hrec]

/-- C3: update responds 404 (with no write) exactly when no stored record
has the requested id; otherwise the first record carrying the id is
replaced — both in the response and in the stored collection — by its
shallow overlay with the request body, every record before and after it
unchanged; and the overlay takes the body's value for every key the body
provides while every other key keeps its previous value. -/
theorem update_contract (id : String) (body : JObj) (apps : List JValue) :
    (putApplicant id body apps = none ↔ ∀ a ∈ apps, hasId a id = false)
    ∧ (∀ (pre : List JValue) (a : JValue) (post : List JValue),
        apps = pre ++ a :: post →
        (∀ p ∈ pre, hasId p id = false) → hasId a id = true →
        putApplicant id body apps
          = some (JValue.obj (spread (asObj a) body),
                  pre ++ JValue.obj (spread (asObj a) body) :: post))
    ∧ (∀ (old : JValue) (k : String),
        jget (JValue.obj (spread (asObj old) body)) k
          = match objGet body k with
            | some v => some v
            | none => jget (JValue.obj (asObj old)) k) := by
  refine ⟨putApplicant_eq_none_iff id body apps, ?_, ?_⟩
  · intro pre a post heq hpre ha
    rw [heq]
    exact putApplicant_found id body pre a post hpre ha
  · intro old k
    rw [jget_obj, jget_obj, objGet_spread]

/-- Witness for C3 at a concrete two-record store: field `X` is replaced,
field `Y` and the unrelated first record are retained. -/
theorem update_contract_witness :
    putApplicant "a" [("X", JValue.str "2")]
        [JValue.obj [("id", JValue.str "x")],
         JValue.obj [("id", JValue.str "a"), ("X", JValue.str "1"),
                     ("Y", JValue.str "y")]]
      = some (JValue.obj [("id", JValue.str "a"), ("X", JValue.str "2"),
                          ("Y", JValue.str "y")],
              [JValue.obj [("id", JValue.str "x")],
               JValue.obj [("id", JValue.str "a"), ("X", JValue.str "2"),
                           ("Y", JValue.str "y")]]) :=
  ((update_contract "a" [("X", JValue.str "2")] _).2.1
      [JValue.obj [("id", JValue.str "x")]]
      (JValue.obj [("id", JValue.str "a"), ("X", JValue.str "1"),
                   ("Y", JValue.str "y")])
      [] rfl (by decide) rfl).trans (by rfl)

/-! ### C4: delete removes the record; absent id is a 404 no-op -/

/-- C4: delete responds 404 — with no write — exactly when no stored
record has the id; whenever some record does carry the id, the delete
succeeds, storing exactly the records that do not carry the id, in their
original order and unchanged — so the deleted id is gone from a subsequent
list and every other record is untouched; and any successful delete arose
from an existing id and stored that same filter. -/
theorem delete_contract (id : String) (apps : List JValue) :
    (deleteApplicant id apps = none ↔ ∀ a ∈ apps, hasId a id = false)
    ∧ ((∃ a ∈ apps, hasId a id = true) →
        deleteApplicant id apps
          = some (apps.filter (fun a => !(hasId a id))))
    ∧ (∀ l, deleteApplicant id apps = some l →
        l = apps.filter (fun a => !(hasId a id))
        ∧ (∀ a ∈ l, hasId a id = false)
        ∧ ∃ a ∈ apps, hasId a id = true) := by
  have hlen_iff : (apps.filter (fun a => !(hasId a id))).length = apps.length
      ↔ ∀ a ∈ apps, (!(hasId a id)) = true := List.filter_length_eq_length
  refine ⟨?_, ?_, ?_⟩
  · simp only [deleteApplicant]
    by_cases hlen : (apps.filter (fun a => !(hasId a id))).length = apps.length
    · rw [if_pos hlen]
      simp only [true_iff]
      intro a ha
      have := hlen_iff.mp hlen a ha
      simpa using this
    · rw [if_neg hlen]
      constructor
      · intro h; exact Option.noConfusion h
      · intro h
        exact absurd (hlen_iff.mpr (fun a ha => by simp [h a ha])) hlen
  · rintro ⟨a, ha, hid⟩
    have hlen : ¬ (apps.filter (fun a => !(hasId a id))).length = apps.length := by
      intro hlen
      have := hlen_iff.mp hlen a ha
      rw [hid] at this
      exact absurd this (by simp)
    simp only [deleteApplicant]
    rw [if_neg hlen]
  · intro l hl
    simp only [deleteApplicant] at hl
    by_cases hlen : (apps.filter (fun a => !(hasId a id))).length = apps.length
    · rw [if_pos hlen] at hl
      exact absurd hl (by simp)
    · rw [if_neg hlen] at hl
      have hl' : l = apps.filter (fun a => !(hasId a id)) :=
        (Option.some.inj hl).symm
      refine ⟨hl', fun a ha => ?_, ?_⟩
      · have := List.of_mem_filter (hl' ▸ ha)
        simpa using this
      · by_contra hno
        push_neg at hno
        exact hlen (hlen_iff.mpr (fun a ha => by simp [hno a ha]))

/-- Witness for C4: a delete of an absent id is refused with the store
untouched, and a delete of an existing id succeeds and keeps exactly the
other records. -/
theorem delete_contract_witness :
    deleteApplicant "zz" [JValue.obj [("id", JValue.str "a")]] = none
    ∧ deleteApplicant "a"
        [JValue.obj [("id", JValue.str "a")],
         JValue.obj [("id", JValue.str "b")]]
        = some ([JValue.obj [("id", JValue.str "a")],
                 JValue.obj [("id", JValue.str "b")]].filter
            (fun a => !(hasId a "a"))) :=
  ⟨(delete_contract "zz" _).1.mpr (by decide),
   (delete_contract "a"
       [JValue.obj [("id", JValue.str "a")],
        JValue.obj [("id", JValue.str "b")]]).2.1
     ⟨JValue.obj [("id", JValue.str "a")],
      List.mem_cons_self _ _, rfl⟩⟩

/-! ### C5: import validation (corrected) -/

theorem importBackupFile_eq_some_iff (v : JValue) (s : JValue) (l : List JValue) :
    importBackupFile v = some (s, l) ↔
      jget v "settings" = some s ∧ truthy s = true
      ∧ jget v "applicants" = some (JValue.arr l) := by
  unfold importBackupFile
  cases hva : jget v "applicants" with
  | none => simp [hva]
  | some w =>
      cases w <;> simp only [hva] <;>
        try (simp; done)
      case arr l' =>
        cases hs : jget v "settings" with
        | none => simp [hs]
        | some s' =>
            cases ht : truthy s' with
            | true =>
                simp only [ht, if_true]
                constructor
                · intro h
                  have h' := Option.some.inj h
                  have h1 : s' = s := congrArg Prod.fst h'
                  have h2 : l' = l := congrArg Prod.snd h'
                  exact ⟨h1 ▸ rfl, h1 ▸ ht, by rw [← h2]⟩
                · rintro ⟨hs', ht', ha'⟩
                  have h1 : s' = s := Option.some.inj hs'
                  have h2 : JValue.arr l' = JValue.arr l := Option.some.inj ha'
                  have h3 : l' = l := by injection h2
                  rw [h1, h3]
            | false =>
                simp only [ht, Bool.false_eq_true, if_false]
                constructor
                · intro h; exact Option.noConfusion h
                · rintro ⟨hs', ht', _⟩
                  rw [Option.some.inj hs', ht'] at ht
                  exact absurd ht (by simp)

theorem importBackupFile_eq_none_iff (v : JValue) :
    importBackupFile v = none ↔
      ¬ ∃ s l, jget v "settings" = some s ∧ truthy s = true
             ∧ jget v "applicants" = some (JValue.arr l) := by
  constructor
  · rintro h ⟨s, l, hs, ht, ha⟩
    have := (importBackupFile_eq_some_iff v s l).mpr ⟨hs, ht, ha⟩
    rw [h] at this
    exact Option.noConfusion this
  · intro h
    cases himp : importBackupFile v with
    | none => rfl
    | some p =>
        obtain ⟨s, l⟩ := p
        obtain ⟨hs, ht, ha⟩ := (importBackupFile_eq_some_iff v s l).mp himp
        exact absurd ⟨s, l, hs, ht, ha⟩ h

theorem importServerJs_eq_some_iff (body : JObj) (s a : JValue) :
    importServerJs body = some (s, a) ↔
      objGet body "settings" = some s ∧ truthy s = true
      ∧ objGet body "applicants" = some a ∧ truthy a = true := by
  unfold importServerJs
  cases hs : objGet body "settings" with
  | none => simp [hs]
  | some s' =>
      cases ha : objGet body "applicants" with
      | none => simp [ha]
      | some a' =>
          cases hts : truthy s' with
          | false =>
              simp only [hts, Bool.false_and, Bool.false_eq_true, if_false]
              constructor
              · intro h; exact Option.noConfusion h
              · rintro ⟨hs', ht', _, _⟩
                rw [Option.some.inj hs', ht'] at hts
                exact absurd hts (by simp)
          | true =>
              cases hta : truthy a' with
              | false =>
                  simp only [hts, hta, Bool.and_false, Bool.false_eq_true,
                    if_false]
                  constructor
                  · intro h; exact Option.noConfusion h
                  · rintro ⟨_, _, ha', hta'⟩
                    rw [Option.some.inj ha', hta'] at hta
                    exact absurd hta (by simp)
              | true =>
                  simp only [hts, hta, Bool.and_self, if_true]
                  constructor
                  · intro h
                    have h' := Option.some.inj h
                    have h1 : s' = s := congrArg Prod.fst h'
                    have h2 : a' = a := congrArg Prod.snd h'
                    exact ⟨h1 ▸ rfl, h1 ▸ hts, h2 ▸ rfl, h2 ▸ hta⟩
                  · rintro ⟨hs', _, ha', _⟩
                    rw [Option.some.inj hs', Option.some.inj ha']

theorem importServerJs_eq_none_iff (body : JObj) :
    importServerJs body = none ↔
      ¬ ∃ s a, objGet body "settings" = some s ∧ truthy s = true
             ∧ objGet body "applicants" = some a ∧ truthy a = true := by
  constructor
  · rintro h ⟨s, a, hs, ht, ha, ht'⟩
    have := (importServerJs_eq_some_iff body s a).mpr ⟨hs, ht, ha, ht'⟩
    rw [h] at this
    exact Option.noConfusion this
  · intro h
    cases himp : importServerJs body with
    | none => rfl
    | some p =>
        obtain ⟨s, a⟩ := p
        obtain ⟨hs, ht, ha, ht'⟩ := (importServerJs_eq_some_iff body s a).mp himp
        exact absurd ⟨s, a, hs, ht, ha, ht'⟩ h

/-- C5 counterexample: the claim covers the import handler of
src/server.js, whose validation is only `if (!settings || !applicants)`;
the payload `{settings: {...}, applicants: "not-an-array"}` — the spec's
own concrete scenario — is therefore accepted against a store previously
holding an old settings object and an empty applicant sequence: the
response status is 200 (not the claimed 400) and both collections are
overwritten, the applicants file now holding the non-sequence string. -/
theorem importServerJs_accepts_nonsequence :
    importServerJsStore
        [("settings", JValue.obj [("id", JValue.str "settings_1")]),
         ("applicants", JValue.str "not-an-array")]
        (JValue.obj [("id", JValue.str "old")]) (JValue.arr [])
      = (200, JValue.obj [("id", JValue.str "settings_1")],
          JValue.str "not-an-array") := rfl

/-- C5 amended: the part_000 import handler rejects with a format error
(400) — before any write, so both stored collections stay exactly as they
were — precisely when the payload's `settings` is missing or falsy or its
`applicants` is not a sequence, and only when that validation passes
wholesale-replaces both collections with the payload's components; the
src/server.js import handler instead validates only presence/truthiness:
it rejects (400, store untouched) exactly when `settings` or `applicants`
is missing or falsy, and otherwise replaces both collections with the
payload values even when `applicants` is a truthy non-sequence. -/
theorem import_validation_contract (v : JValue) (body : JObj)
    (storedSettings storedApplicants : JValue) :
    (importBackupFile v = none ↔
      ¬ ∃ s l, jget v "settings" = some s ∧ truthy s = true
             ∧ jget v "applicants" = some (JValue.arr l))
    ∧ (∀ s l, importBackupFile v = some (s, l) →
        jget v "settings" = some s ∧ truthy s = true
        ∧ jget v "applicants" = some (JValue.arr l))
    ∧ (importServerJs body = none ↔
      ¬ ∃ s a, objGet body "settings" = some s ∧ truthy s = true
             ∧ objGet body "applicants" = some a ∧ truthy a = true)
    ∧ (∀ s a, importServerJs body = some (s, a) →
        objGet body "settings" = some s ∧ truthy s = true
        ∧ objGet body "applicants" = some a ∧ truthy a = true)
    ∧ (importBackupFile v = none →
        importBackupFileStore v storedSettings storedApplicants
          = (400, storedSettings, storedApplicants))
    ∧ (∀ s l, importBackupFile v = some (s, l) →
        importBackupFileStore v storedSettings storedApplicants
          = (200, s, JValue.arr l))
    ∧ (importServerJs body = none →
        importServerJsStore body storedSettings storedApplicants
          = (400, storedSettings, storedApplicants))
    ∧ (∀ s a, importServerJs body = some (s, a) →
        importServerJsStore body storedSettings storedApplicants
          = (200, s, a)) :=
  ⟨importBackupFile_eq_none_iff v,
   fun s l h => (importBackupFile_eq_some_iff v s l).mp h,
   importServerJs_eq_none_iff body,
   fun s a h => (importServerJs_eq_some_iff body s a).mp h,
   fun h => by simp only [importBackupFileStore, h],
   fun s l h => by simp only [importBackupFileStore, h],
   fun h => by simp only [importServerJsStore, h],
   fun s a h => by simp only [importServerJsStore, h]⟩

/-- Witness for C5 (amended): a well-formed backup document is accepted by
the part_000 handler, its components are exactly the payload's, and the
stored files are overwritten with them; a payload with a non-sequence
`applicants` is rejected by the same handler with the store unchanged. -/
theorem import_validation_contract_witness :
    (jget (JValue.obj [("settings", JValue.obj [("id", JValue.str "settings_1")]),
                       ("applicants", JValue.arr [])]) "settings"
      = some (JValue.obj [("id", JValue.str "settings_1")])
    ∧ truthy (JValue.obj [("id", JValue.str "settings_1")]) = true
    ∧ jget (JValue.obj [("settings", JValue.obj [("id", JValue.str "settings_1")]),
                        ("applicants", JValue.arr [])]) "applicants"
      = some (JValue.arr []))
    ∧ importBackupFileStore
        (JValue.obj [("settings", JValue.obj [("id", JValue.str "settings_1")]),
                     ("applicants", JValue.arr [])])
        (JValue.obj [("id", JValue.str "old")]) (JValue.arr [JValue.null])
      = (200, JValue.obj [("id", JValue.str "settings_1")], JValue.arr [])
    ∧ importBackupFileStore
        (JValue.obj [("settings", JValue.obj [("id", JValue.str "settings_1")]),
                     ("applicants", JValue.str "not-an-array")])
        (JValue.obj [("id", JValue.str "old")]) (JValue.arr [JValue.null])
      = (400, JValue.obj [("id", JValue.str "old")], JValue.arr [JValue.null]) :=
  ⟨(import_validation_contract
      (JValue.obj [("settings", JValue.obj [("id", JValue.str "settings_1")]),
                   ("applicants", JValue.arr [])]) []
      (JValue.obj [("id", JValue.str "old")]) (JValue.arr [JValue.null])).2.1
    (JValue.obj [("id", JValue.str "settings_1")]) [] rfl,
   (import_validation_contract
      (JValue.obj [("settings", JValue.obj [("id", JValue.str "settings_1")]),
                   ("applicants", JValue.arr [])]) []
      (JValue.obj [("id", JValue.str "old")]) (JValue.arr [JValue.null])).2.2.2.2.2.1
    (JValue.obj [("id", JValue.str "settings_1")]) [] rfl,
   (import_validation_contract
      (JValue.obj [("settings", JValue.obj [("id", JValue.str "settings_1")]),
                   ("applicants", JValue.str "not-an-array")]) []
      (JValue.obj [("id", JValue.str "old")]) (JValue.arr [JValue.null])).2.2.2.2.1
    rfl⟩

/-! ### C8 / C10: archive (zip) export robustness -/

theorem docEntry_ne_none (dirname : String) (fileExists : String → Bool)
    (fullName : Option JValue) (d : JValue) (url : String)
    (h : jget d "url" = some (JValue.str url)) :
    docEntry dirname fileExists fullName d ≠ none := by
  have hred : docEntry dirname fileExists fullName d
      = if fileExists (joinPath dirname url) then
          (match strOrElse fullName "unknown_applicant",
                 strOrElse (jget d "name") "unknown_doc" with
           | some fn, some dn =>
               some (some (AEntry.file (joinPath dirname url)
                 (sanitizeFolder fn ++ "/" ++ sanitizeDoc dn ++ extname url)))
           | _, _ => some none)
        else some none := by
    unfold docEntry
    rw [h]
  rw [hred]
  split
  · split <;> simp
  · simp

theorem docEntry_eq (dirname : String) (fileExists : String → Bool)
    (fullName : Option JValue) (d : JValue) (url fn dn : String)
    (hurl : jget d "url" = some (JValue.str url))
    (hfn : strOrElse fullName "unknown_applicant" = some fn)
    (hdn : strOrElse (jget d "name") "unknown_doc" = some dn) :
    docEntry dirname fileExists fullName d
      = if fileExists (joinPath dirname url) then
          some (some (AEntry.file (joinPath dirname url)
            (sanitizeFolder fn ++ "/" ++ sanitizeDoc dn ++ extname url)))
        else some none := by
  unfold docEntry
  rw [hurl, hfn, hdn]

theorem docLoop_eq_filterMap (dirname : String) (fileExists : String → Bool)
    (fullName : Option JValue) :
    ∀ (docs : List JValue),
      (∀ d ∈ docs, docEntry dirname fileExists fullName d ≠ none) →
      docLoop dirname fileExists fullName docs
        = docs.filterMap (fun d => (docEntry dirname fileExists fullName d).join)
  | [], _ => rfl
  | d :: rest, h => by
      have hd := h d (List.mem_cons_self d rest)
      have hrec := docLoop_eq_filterMap dirname fileExists fullName rest
        (fun q hq => h q (List.mem_cons_of_mem d hq))
      cases he : docEntry dirname fileExists fullName d with
      | none => exact absurd he hd
      | some o =>
          cases o with
          | none =>
              simp [docLoop, he, List.filterMap_cons, Option.join, hrec]
          | some e =>
              simp [docLoop, he, List.filterMap_cons, Option.join, hrec]

theorem applicantDocEntries_eq (dirname : String)
    (jsonParse : String → Option JValue) (fileExists : String → Bool)
    (a : JValue) (s : String) (docs : List JValue)
    (hDoc : jget a "Documents" = some (JValue.str s)) (hs : s ≠ "")
    (hParse : jsonParse s = some (JValue.arr docs)) :
    applicantDocEntries dirname jsonParse fileExists a
      = docLoop dirname fileExists (jget a "FullName") docs := by
  have ht : truthy (JValue.str s) = true := by simp [truthy, hs]
  simp only [applicantDocEntries, hDoc, ht, if_true]
  have hjs : jsToString (JValue.str s) = s := rfl
  rw [hjs, hParse]

/-- C8: the zip export never aborts — it always produces the text summary
entry followed by the per-applicant document entries — and for an
applicant whose `Documents` parse to a sequence of well-formed `{name, url}`
entries, the bundled entries are exactly a filter of the referenced
documents: a document whose file is missing from the upload store takes
the warn-and-skip outcome (`some none`, never an error), while every
referenced document whose file exists contributes its archive entry. -/
theorem zip_export_skips_missing (dirname : String)
    (jsonParse : String → Option JValue) (fileExists : String → Bool)
    (apps : List JValue) (a : JValue) (ha : a ∈ apps)
    (s : String) (docs : List JValue)
    (hDoc : jget a "Documents" = some (JValue.str s)) (hs : s ≠ "")
    (hParse : jsonParse s = some (JValue.arr docs))
    (hFN : strOrElse (jget a "FullName") "unknown_applicant" ≠ none)
    (hUrls : ∀ d ∈ docs, ∃ u, jget d "url" = some (JValue.str u))
    (hNames : ∀ d ∈ docs, strOrElse (jget d "name") "unknown_doc" ≠ none) :
    exportZip dirname jsonParse fileExists apps
      = AEntry.text "applicant-data.txt" (summaryText apps)
        :: apps.flatMap (applicantDocEntries dirname jsonParse fileExists)
    ∧ applicantDocEntries dirname jsonParse fileExists a
        = docs.filterMap
            (fun d => (docEntry dirname fileExists (jget a "FullName") d).join)
    ∧ (∀ d ∈ docs, ∀ u, jget d "url" = some (JValue.str u) →
        fileExists (joinPath dirname u) = false →
        docEntry dirname fileExists (jget a "FullName") d = some none)
    ∧ (∀ d ∈ docs, ∀ u, jget d "url" = some (JValue.str u) →
        fileExists (joinPath dirname u) = true →
        ∃ nm, AEntry.file (joinPath dirname u) nm
                ∈ exportZip dirname jsonParse fileExists apps) := by
  obtain ⟨fn, hfn⟩ := Option.ne_none_iff_exists'.mp hFN
  have h2 : applicantDocEntries dirname jsonParse fileExists a
      = docs.filterMap
          (fun d => (docEntry dirname fileExists (jget a "FullName") d).join) := by
    rw [applicantDocEntries_eq dirname jsonParse fileExists a s docs hDoc hs hParse]
    exact docLoop_eq_filterMap dirname fileExists (jget a "FullName") docs
      (fun d hd => by
        obtain ⟨u, hu⟩ := hUrls d hd
        exact docEntry_ne_none dirname fileExists (jget a "FullName") d u hu)
  refine ⟨rfl, h2, ?_, ?_⟩
  · intro d hd u hu hmiss
    obtain ⟨dn, hdn⟩ := Option.ne_none_iff_exists'.mp (hNames d hd)
    rw [docEntry_eq dirname fileExists (jget a "FullName") d u fn dn hu hfn hdn,
        if_neg (by simp [hmiss])]
  · intro d hd u hu hhit
    obtain ⟨dn, hdn⟩ := Option.ne_none_iff_exists'.mp (hNames d hd)
    refine ⟨sanitizeFolder fn ++ "/" ++ sanitizeDoc dn ++ extname u, ?_⟩
    apply List.mem_cons_of_mem
    refine List.mem_flatMap.mpr ⟨a, ha, ?_⟩
    rw [h2]
    refine List.mem_filterMap.mpr ⟨d, hd, ?_⟩
    rw [docEntry_eq dirname fileExists (jget a "FullName") d u fn dn hu hfn hdn,
        if_pos hhit]
    rfl

/-- Witness for C8: one applicant references two documents; the first file
is missing from the upload store and is skipped, the second exists and is
bundled under the sanitized folder and document name. -/
theorem zip_export_skips_missing_witness :
    applicantDocEntries "/app"
        (fun s => if s = "[docs]"
          then some (JValue.arr
            [JValue.obj [("name", JValue.str "passport.pdf"),
                         ("url", JValue.str "/uploads/doc-1.pdf")],
             JValue.obj [("name", JValue.str "photo.jpg"),
                         ("url", JValue.str "/uploads/doc-2.jpg")]])
          else none)
        (fun p => p == "/app/uploads/doc-2.jpg")
        (JValue.obj [("id", JValue.str "a1"),
                     ("FullName", JValue.str "John Doe"),
                     ("Documents", JValue.str "[docs]")])
      = [AEntry.file "/app/uploads/doc-2.jpg" "john_doe/photo.jpg.jpg"] :=
  ((zip_export_skips_missing "/app"
      (fun s => if s = "[docs]"
        then some (JValue.arr
          [JValue.obj [("name", JValue.str "passport.pdf"),
                       ("url", JValue.str "/uploads/doc-1.pdf")],
           JValue.obj [("name", JValue.str "photo.jpg"),
                       ("url", JValue.str "/uploads/doc-2.jpg")]])
        else none)
      (fun p => p == "/app/uploads/doc-2.jpg")
      [JValue.obj [("id", JValue.str "a1"),
                   ("FullName", JValue.str "John Doe"),
                   ("Documents", JValue.str "[docs]")]]
      (JValue.obj [("id", JValue.str "a1"),
                   ("FullName", JValue.str "John Doe"),
                   ("Documents", JValue.str "[docs]")])
      (List.mem_singleton.mpr rfl)
      "[docs]"
      [JValue.obj [("name", JValue.str "passport.pdf"),
                   ("url", JValue.str "/uploads/doc-1.pdf")],
       JValue.obj [("name", JValue.str "photo.jpg"),
                   ("url", JValue.str "/uploads/doc-2.jpg")]]
      rfl (by decide) rfl (by decide)
      (fun d hd => by
        rcases List.mem_cons.mp hd with h | hd'
        · exact ⟨"/uploads/doc-1.pdf", by subst h; rfl⟩
        · rcases List.mem_cons.mp hd' with h | h'
          · exact ⟨"/uploads/doc-2.jpg", by subst h; rfl⟩
          · exact absurd h' (List.not_mem_nil d))
      (by decide)).2.1).trans (by rfl)

theorem summaryBlocks_append :
    ∀ (l1 l2 : List JValue),
      summaryBlocks (l1 ++ l2) = summaryBlocks l1 ++ summaryBlocks l2
  | [], l2 => by
      rw [List.nil_append]
      exact (String.empty_append (summaryBlocks l2)).symm
  | a :: l1', l2 => by
      rw [List.cons_append]
      show summaryBlock a ++ summaryBlocks (l1' ++ l2)
        = summaryBlock a ++ summaryBlocks l1' ++ summaryBlocks l2
      rw [summaryBlocks_append l1' l2, String.append_assoc]

/-- C10: an applicant whose `Documents` field is a truthy string that does
not parse as JSON does not abort the zip export: that applicant
contributes no document entries (the parse error is caught and logged),
the archive still consists of the text summary — whose content includes
this applicant's block — followed by the other applicants' document
entries, which are bundled as usual. -/
theorem zip_export_unparseable (dirname : String)
    (jsonParse : String → Option JValue) (fileExists : String → Bool)
    (pre post : List JValue) (a : JValue) (s : String)
    (hDoc : jget a "Documents" = some (JValue.str s)) (hs : s ≠ "")
    (hParse : jsonParse s = none) :
    applicantDocEntries dirname jsonParse fileExists a = []
    ∧ exportZip dirname jsonParse fileExists (pre ++ a :: post)
        = AEntry.text "applicant-data.txt" (summaryText (pre ++ a :: post))
          :: (pre.flatMap (applicantDocEntries dirname jsonParse fileExists)
              ++ post.flatMap (applicantDocEntries dirname jsonParse fileExists))
    ∧ summaryText (pre ++ a :: post)
        = summaryHeader
          ++ (summaryBlocks pre ++ (summaryBlock a ++ summaryBlocks post)) := by
  have ht : truthy (JValue.str s) = true := by simp [truthy, hs]
  have h1 : applicantDocEntries dirname jsonParse fileExists a = [] := by
    simp only [applicantDocEntries, hDoc, ht, if_true]
    have hjs : jsToString (JValue.str s) = s := rfl
    rw [hjs, hParse]
  refine ⟨h1, ?_, ?_⟩
  · unfold exportZip
    rw [List.flatMap_append, List.flatMap_cons, h1, List.nil_append]
  · unfold summaryText
    rw [summaryBlocks_append, summaryBlocks]

/-- Witness for C10: two applicants, the first with an unparseable
`Documents` string; the archive is exactly the text summary. -/
theorem zip_export_unparseable_witness :
    exportZip "/app" (fun _ => none) (fun _ => false)
        [JValue.obj [("FullName", JValue.str "Bad Docs"),
                     ("Documents", JValue.str "not json")],
         JValue.obj [("FullName", JValue.str "Good")]]
      = [AEntry.text "applicant-data.txt"
          (summaryText
            [JValue.obj [("FullName", JValue.str "Bad Docs"),
                         ("Documents", JValue.str "not json")],
             JValue.obj [("FullName", JValue.str "Good")]])] :=
  ((zip_export_unparseable "/app" (fun _ => none) (fun _ => false)
      [] [JValue.obj [("FullName", JValue.str "Good")]]
      (JValue.obj [("FullName", JValue.str "Bad Docs"),
                   ("Documents", JValue.str "not json")])
      "not json" rfl (by decide) rfl).2.1).trans (by rfl)

end VisaTracker
